import Mathlib

/-!
Shallow embedding of the candidate scoring and ranking utilities
(`src/utils/scoring.js` of the SCORING-AND-RANKING repository).

Modelling conventions:
* JavaScript numbers are modelled as rationals (`ℚ`); `Math.exp` is modelled
  with `Real.exp`, so the gaussian membership function lives in `ℝ`.
* JavaScript objects used as string-keyed maps are modelled as association
  lists `List (String × _)` iterated in insertion order, with unique keys.
* A JavaScript value that can be a number, string, boolean or array is
  modelled by the inductive type `Value`.  The JS strict-equality operator
  `===` is modelled by structural equality `Value.beq`; for arrays JS
  compares references, which agrees with structural equality whenever an
  element is compared against itself (the only case exercised here).
* `x || d` on an optionally-present number (JS falsiness of `0`) is
  modelled by `jsOr`.
* `Array.prototype.sort` (stable since ES2019) is modelled by a stable
  insertion sort parameterised by the numeric comparator.
-/

/-- A JavaScript runtime value as handled by the scoring utilities:
number, string, boolean, or (nested) array. -/
inductive Value where
  | num : ℚ → Value
  | str : String → Value
  | bool : Bool → Value
  | arr : List Value → Value
deriving Repr

mutual

/-- Structural equality on `Value`, modelling JS `===` (see module comment
for the array caveat). -/
def Value.beq : Value → Value → Bool
  | .num a, .num b => a == b
  | .str a, .str b => a == b
  | .bool a, .bool b => a == b
  | .arr a, .arr b => Value.beqList a b
  | _, _ => false

/-- Element-wise `Value.beq` on lists. -/
def Value.beqList : List Value → List Value → Bool
  | [], [] => true
  | a :: as, b :: bs => Value.beq a b && Value.beqList as bs
  | _, _ => false

end

/-- JS `x || d` for an optionally present numeric field: `undefined`/`null`
and the number `0` are falsy and select the default. -/
def jsOr (v : Option ℚ) (d : ℚ) : ℚ :=
  match v with
  | none => d
  | some x => if x = 0 then d else x

/-- Lookup of a string key in an object modelled as an association list
(JS `obj[key]`, `undefined` when absent). -/
def lookupQ (l : List (String × ℚ)) (k : String) : Option ℚ :=
  (l.find? (fun p => p.1 == k)).map Prod.snd

/-- Lookup of a string key in a `Value`-valued object / Map. -/
def lookupVal (l : List (String × Value)) (k : String) : Option Value :=
  (l.find? (fun p => p.1 == k)).map Prod.snd

/-- One step of stable insertion: place `x` after every element `y` of the
already-sorted list with `cmp x y ≥ 0`, before the first with `cmp x y < 0`.
Together with `sortByCmp` this models the stable JS `Array.prototype.sort`
under the numeric comparator `cmp`. -/
def insertSorted (cmp : α → α → ℚ) (x : α) : List α → List α
  | [] => [x]
  | y :: ys => if cmp x y < 0 then x :: y :: ys else y :: insertSorted cmp x ys

/-- Stable sort by a JS numeric comparator (negative result means the first
argument sorts earlier). -/
def sortByCmp (cmp : α → α → ℚ) (l : List α) : List α :=
  l.foldl (fun acc x => insertSorted cmp x acc) []

/-- Ascending numeric sort, JS `[...values].sort((a, b) => a - b)`. -/
def sortQ (l : List ℚ) : List ℚ :=
  sortByCmp (fun a b => a - b) l

/-- Source `triangularMF(x, a, b, c)`: piecewise-linear triangular
membership function. -/
def triangularMF (x a b c : ℚ) : ℚ :=
  if x ≤ a then 0
  else if a < x ∧ x ≤ b then (x - a) / (b - a)
  else if b < x ∧ x ≤ c then (c - x) / (c - b)
  else 0

/-- Source `trapezoidalMF(x, a, b, c, d)`: piecewise-linear trapezoidal
membership function. -/
def trapezoidalMF (x a b c d : ℚ) : ℚ :=
  if x ≤ a then 0
  else if a < x ∧ x ≤ b then (x - a) / (b - a)
  else if b < x ∧ x ≤ c then 1
  else if c < x ∧ x ≤ d then (d - x) / (d - c)
  else 0

/-- Source `gaussianMF(x, mean, sigma)`: `Math.exp(-0.5 * ((x-mean)/sigma)^2)`. -/
noncomputable def gaussianMF (x mean sigma : ℝ) : ℝ :=
  Real.exp (-(1/2) * ((x - mean) / sigma) ^ 2)

/-- Levenshtein edit distance with unit insertion / deletion / substitution
costs.  The source fills the standard dynamic-programming matrix whose cell
`(i, j)` holds the distance between the length-`i` and length-`j` prefixes;
that matrix tabulates exactly this recurrence, so the resulting distance is
this function of the two character lists. -/
def lev : List Char → List Char → ℕ
  | [], t => t.length
  | a :: s, [] => (a :: s).length
  | a :: s, b :: t =>
      min (lev s (b :: t) + 1)
        (min (lev (a :: s) t + 1)
          (lev s t + (if a = b then 0 else 1)))

/-- Source `calculateStringSimilarity(str1, str2)`: case-folds and trims
both strings, returns 1 for two empty or equal strings, 0 when exactly one
is empty, else `1 - levenshtein/maxLength`. -/
def calculateStringSimilarity (str1 str2 : String) : ℚ :=
  let s1 := str1.toLower.trim
  let s2 := str2.toLower.trim
  if s1.length = 0 ∧ s2.length = 0 then 1
  else if s1.length = 0 ∨ s2.length = 0 then 0
  else if s1 = s2 then 1
  else 1 - (lev s1.toList s2.toList : ℚ) / (max s1.length s2.length : ℕ)

/-- Pairwise item similarity used inside `calculateArraySimilarity`:
string pairs via `calculateStringSimilarity` (pre-lowercased unless
`caseSensitive`), numeric pairs via `1 - |Δ|/max(|a|,|b|)`, anything else
via strict equality (`===`). -/
def simPair (caseSensitive : Bool) (v w : Value) : ℚ :=
  match v, w with
  | .str a, .str b =>
      calculateStringSimilarity (if caseSensitive then a else a.toLower)
        (if caseSensitive then b else b.toLower)
  | .num a, .num b =>
      let maxDiff := max |a| |b|
      if maxDiff = 0 then 1 else max 0 (1 - |a - b| / maxDiff)
  | v, w => if Value.beq v w then 1 else 0

/-- One step of the best-match scan of a matrix row in
`calculateArraySimilarity`: a strictly larger entry updates the best index
and the best score. -/
def bestStep (acc : Option ℕ × ℚ) (p : ℕ × ℚ) : Option ℕ × ℚ :=
  if p.2 > acc.2 then (some p.1, p.2) else acc

/-- The best-match scan of one matrix row in `calculateArraySimilarity`:
`bestMatchIdx` starts at `-1` (here `none`) and `bestMatchScore` at
`threshold - 0.01`; each strictly larger entry updates both. -/
def findBest (threshold : ℚ) (row : List ℚ) : Option ℕ × ℚ :=
  row.enum.foldl bestStep (none, threshold - 1/100)

/-- JS `row.splice(j, 1)` guarded by `row.length > j`: drop the element at
index `j`, identity when the row is too short. -/
def removeAt (j : ℕ) (l : List α) : List α :=
  l.take j ++ l.drop (j + 1)

/-- The greedy matching loop of `calculateArraySimilarity`: for each row in
turn, take its best entry above the threshold, add it to the accumulated
similarity, count the match, and splice the matched column out of every
remaining row.  (The source also splices the current and earlier rows,
which are never read again.)  Returns `(totalSimilarity, matchCount)`. -/
def greedyLoop (threshold : ℚ) : List (List ℚ) → ℚ × ℕ
  | [] => (0, 0)
  | row :: rest =>
    match findBest threshold row with
    | (none, _) => greedyLoop threshold rest
    | (some j, s) =>
      let r := greedyLoop threshold (rest.map (removeAt j))
      (s + r.1, 1 + r.2)
  termination_by l => l.length
  decreasing_by all_goals simp

/-- Source `calculateArraySimilarity(sourceArray, targetArray, options)`
with `options = {caseSensitive = false, partial = true, threshold = 0.7}`
(the destructured `partial` option is never read by the body).  Builds the
pairwise similarity matrix, runs the greedy matching loop, and combines
match quality and coverage as `0.4 * quality + 0.6 * coverage`.  The
source's `processLargerFirst` expression maps each row back to itself, so
`primaryArray` is always the row-per-source-item matrix, which is what is
used here. -/
def calculateArraySimilarity (sourceArray targetArray : List Value)
    (caseSensitive : Bool := false) (threshold : ℚ := 7/10) : ℚ :=
  if sourceArray.length = 0 ∧ targetArray.length = 0 then 1
  else if sourceArray.length = 0 ∨ targetArray.length = 0 then 0
  else
    let similarityMatrix :=
      sourceArray.map (fun a => targetArray.map (fun b => simPair caseSensitive a b))
    let r := greedyLoop threshold similarityMatrix
    let maxPossibleMatches := min sourceArray.length targetArray.length
    if maxPossibleMatches = 0 then 0
    else
      let matchQuality := if r.2 > 0 then r.1 / (r.2 : ℚ) else 0
      let coverage := (r.2 : ℚ) / (maxPossibleMatches : ℚ)
      matchQuality * (4/10) + coverage * (6/10)

/-- Source `calculateFuzzyScore(value, targetValue, fuzzyFactor = 0.2,
membershipType = 'simple')`.  Dispatches on the runtime types of value and
target; for numeric pairs the shape parameters are derived around the
target from the fuzzy factor.  Returns `ℝ` because the gaussian branch
uses `Math.exp`; every other branch is a rational cast.  (The source first
returns 0 for `null`/`undefined` values, which have no counterpart in
`Value` and are not modelled.) -/
noncomputable def calculateFuzzyScore (value targetValue : Value)
    (fuzzyFactor : ℚ := 1/5) (membershipType : String := "simple") : ℝ :=
  match value, targetValue with
  | .num v, .num t =>
      if membershipType = "triangular" then
        (triangularMF v (t * (1 - fuzzyFactor)) t (t * (1 + fuzzyFactor)) : ℝ)
      else if membershipType = "trapezoidal" then
        (trapezoidalMF v (t * (1 - fuzzyFactor)) (t * (1 - fuzzyFactor/2))
          (t * (1 + fuzzyFactor/2)) (t * (1 + fuzzyFactor)) : ℝ)
      else if membershipType = "gaussian" then
        gaussianMF (v : ℝ) (t : ℝ) ((t * fuzzyFactor : ℚ) : ℝ)
      else
        (max 0 (1 - |v - t| / max (t * fuzzyFactor) 1) : ℝ)
  | .str s, .str t => (calculateStringSimilarity s t : ℝ)
  | .arr s, .arr t => (calculateArraySimilarity s t : ℝ)
  | .bool a, .bool b => if a = b then 1 else 0
  | v, t => if Value.beq v t then 1 else 0

/-- Source `calculateMedian(arr)`: median of a numeric array via sorting.
(On an empty array the source indexes `undefined` and yields `NaN`; the
`getD 0` default is never reached by any claim.) -/
def calculateMedian (arr : List ℚ) : ℚ :=
  let sorted := sortQ arr
  let mid := sorted.length / 2
  if sorted.length % 2 = 0 then ((sorted.getD (mid - 1) 0) + (sorted.getD mid 0)) / 2
  else sorted.getD mid 0

/-- Source `removeFuzzyOutliers(values, fuzzyThreshold = 0.2)`: with more
than two values, compute the median and the median absolute deviation
(MAD); if MAD is 0 keep only values equal to the median, otherwise keep
values whose fuzzy membership to the "normal" set exceeds 0.5.  The
constant 1.4826 is `14826/10000`. -/
def removeFuzzyOutliers (values : List ℚ) (fuzzyThreshold : ℚ := 1/5) : List ℚ :=
  if values.length ≤ 2 then values
  else
    let sorted := sortQ values
    let mid := sorted.length / 2
    let medianValue :=
      if sorted.length % 2 = 0 then ((sorted.getD (mid - 1) 0) + (sorted.getD mid 0)) / 2
      else sorted.getD mid 0
    let deviations := sorted.map (fun v => |v - medianValue|)
    let mad := calculateMedian deviations
    values.filter (fun v =>
      let deviation := |v - medianValue|
      if mad = 0 then v == medianValue
      else
        let normalMembership := max 0 (1 - deviation / (fuzzyThreshold * mad * (14826/10000)))
        normalMembership > 1/2)

/-- The union of criterion names over all proposals, in first-appearance
order (JS `Set` insertion order). -/
def allCriteriaList (initialWeights : List (List (String × ℚ))) : List String :=
  initialWeights.foldl
    (fun acc hr => hr.foldl (fun acc2 p => if p.1 ∈ acc2 then acc2 else acc2 ++ [p.1]) acc)
    []

/-- The per-criterion weight collection of `applyDelphiTechnique`: the
proposals that contain the criterion with a truthy (present and nonzero)
weight, in proposal order (`if (hrWeights[criterion])`). -/
def weightsFor (initialWeights : List (List (String × ℚ))) (criterion : String) : List ℚ :=
  initialWeights.filterMap (fun hr =>
    match lookupQ hr criterion with
    | none => none
    | some v => if v = 0 then none else some v)

/-- The aggregation phase of `applyDelphiTechnique`, before normalization:
for every criterion, remove fuzzy outliers from the collected weights and
average the survivors. -/
def delphiRawWeights (initialWeights : List (List (String × ℚ))) : List (String × ℚ) :=
  (allCriteriaList initialWeights).map (fun criterion =>
    let filteredWeights := removeFuzzyOutliers (weightsFor initialWeights criterion)
    (criterion, (filteredWeights.foldl (fun sum w => sum + w) 0) / (filteredWeights.length : ℚ)))

/-- Source `applyDelphiTechnique(initialWeights)`: aggregate each
criterion's proposals with fuzzy outlier removal, then normalize the
resulting weights to sum to 1 (skipped when the total is not positive). -/
def applyDelphiTechnique (initialWeights : List (List (String × ℚ))) : List (String × ℚ) :=
  let finalWeights := delphiRawWeights initialWeights
  let totalWeight := (finalWeights.map Prod.snd).foldl (fun sum w => sum + w) 0
  if totalWeight > 0 then finalWeights.map (fun p => (p.1, p.2 / totalWeight))
  else finalWeights

/-- JS abstract `<` comparison as used by the non-numeric fallback of the
hard-criteria filter, restricted to the value shapes that occur there:
numbers compare numerically, strings lexicographically, booleans coerce to
0/1.  (Comparisons that JS resolves through array-to-string coercion are
not modelled; no claim exercises them.) -/
def jsLess : Value → Value → Bool
  | .num a, .num b => a < b
  | .str a, .str b => a < b
  | .bool a, .bool b => (if a then (1:ℚ) else 0) < (if b then (1:ℚ) else 0)
  | .bool a, .num b => (if a then (1:ℚ) else 0) < b
  | .num a, .bool b => a < (if b then (1:ℚ) else 0)
  | _, _ => false

/-- The per-pair check in the loop body of `applyHardCriteriaFilter`, for
an attribute value that is present: numeric value and threshold pass when
the value is not below `threshold * (1 - thresholdTolerance)`; any other
combination passes when `candidateValue < threshold` is false. -/
def hardCheck (candidateValue threshold : Value) (thresholdTolerance : ℚ) : Bool :=
  match candidateValue, threshold with
  | .num v, .num t => !(v < t * (1 - thresholdTolerance))
  | v, t => !(jsLess v t)

/-- The whole-candidate predicate of `applyHardCriteriaFilter`: every
criterion's attribute must be present and pass `hardCheck` (the source
returns `false` from the loop at the first failure). -/
def passesHardCriteria (attributes : List (String × Value))
    (criteria : List (String × Value)) (thresholdTolerance : ℚ) : Bool :=
  criteria.all (fun p =>
    match lookupVal attributes p.1 with
    | none => false
    | some v => hardCheck v p.2 thresholdTolerance)

/-- Source `applyHardCriteriaFilter(candidates, criteria,
thresholdTolerance = 0.1)`: keep the candidates passing every hard
criterion.  A candidate is modelled by its attribute map. -/
def applyHardCriteriaFilter (candidates : List (List (String × Value)))
    (criteria : List (String × Value)) (thresholdTolerance : ℚ := 1/10) :
    List (List (String × Value)) :=
  candidates.filter (fun c => passesHardCriteria c criteria thresholdTolerance)

/-- Result record of `applyWSM` / `aggregateStageScores`. -/
structure ScoreResult where
  score : ℚ
  confidence : ℚ
deriving Repr, DecidableEq

/-- The loop body of `applyWSM`: a declared weight key whose attribute is
present contributes `value * weight * confidence` to the score,
`weight * confidence` to the total weight and `confidence` to the total
confidence (`confidenceScores[key] || 1.0`); absent keys contribute
nothing.  The accumulator is `(score, totalWeight, totalConfidence)`. -/
def wsmStep (attributes confidenceScores : List (String × ℚ))
    (acc : ℚ × ℚ × ℚ) (p : String × ℚ) : ℚ × ℚ × ℚ :=
  match lookupQ attributes p.1 with
  | none => acc
  | some attributeValue =>
    let confidence := jsOr (lookupQ confidenceScores p.1) 1
    let adjustedWeight := p.2 * confidence
    (acc.1 + attributeValue * adjustedWeight, acc.2.1 + adjustedWeight, acc.2.2 + confidence)

/-- Source `applyWSM(attributes, weights, confidenceScores = {})` (see
`wsmStep` for the loop body): the score is normalized by the total
effective weight (0 when that is not positive) and the confidence is the
total confidence divided by the number of declared weight keys. -/
def applyWSM (attributes : List (String × ℚ)) (weights : List (String × ℚ))
    (confidenceScores : List (String × ℚ) := []) : ScoreResult :=
  let acc := weights.foldl (wsmStep attributes confidenceScores) (0, 0, 0)
  { score := if acc.2.1 > 0 then acc.1 / acc.2.1 else 0,
    confidence := if weights.length > 0 then acc.2.2 / (weights.length : ℚ) else 1 }

/-- A candidate entering `rankCandidates`: an identity plus the optionally
present `finalScore` and `confidence` fields read by the ranker.  (The
source spreads every other field through unchanged; they play no role.) -/
structure Candidate where
  id : ℕ
  finalScore : Option ℚ
  confidence : Option ℚ
deriving Repr, DecidableEq

/-- The copied candidate built by the `map` at the top of
`rankCandidates`: all original fields plus the defaulted `finalScore`
(`candidate.finalScore || 0`) and the added `confidenceScore`
(`candidate.confidence || 1.0`). -/
structure PreparedCandidate where
  id : ℕ
  finalScore : ℚ
  confidence : Option ℚ
  confidenceScore : ℚ
deriving Repr, DecidableEq

/-- A fully ranked entry: the prepared candidate with `rank` and
`percentile` attached by the final `forEach` of `rankCandidates`. -/
structure RankedCandidate where
  id : ℕ
  finalScore : ℚ
  confidence : Option ℚ
  confidenceScore : ℚ
  rank : ℕ
  percentile : ℚ
deriving Repr, DecidableEq

/-- The copy step of `rankCandidates` (`{...candidate, finalScore:
candidate.finalScore || 0, confidenceScore: candidate.confidence || 1.0}`). -/
def prepareCandidate (c : Candidate) : PreparedCandidate :=
  { id := c.id,
    finalScore := jsOr c.finalScore 0,
    confidence := c.confidence,
    confidenceScore := jsOr c.confidence 1 }

/-- The sort comparator of `rankCandidates`: when the two final scores are
within 0.05 of each other, compare by descending confidence, otherwise by
descending final score. -/
def rankComparator (a b : PreparedCandidate) : ℚ :=
  if |b.finalScore - a.finalScore| < 5/100 then b.confidenceScore - a.confidenceScore
  else b.finalScore - a.finalScore

/-- Drop the `rank` / `percentile` annotations, recovering the prepared
candidate an entry was built from. -/
def stripRank (r : RankedCandidate) : PreparedCandidate :=
  { id := r.id,
    finalScore := r.finalScore,
    confidence := r.confidence,
    confidenceScore := r.confidenceScore }

/-- Source `rankCandidates(candidates)`: copy every candidate (defaulting
`finalScore` and adding `confidenceScore`), sort by the near-tie-aware
comparator, then annotate `percentile = 100 * (1 - index/n)` and
`rank = index + 1`. -/
def rankCandidates (candidates : List Candidate) : List RankedCandidate :=
  let rankedCandidates := sortByCmp rankComparator (candidates.map prepareCandidate)
  let n := rankedCandidates.length
  rankedCandidates.enum.map (fun p =>
    { id := p.2.id,
      finalScore := p.2.finalScore,
      confidence := p.2.confidence,
      confidenceScore := p.2.confidenceScore,
      rank := p.1 + 1,
      percentile := 100 * (1 - (p.1 : ℚ) / (n : ℚ)) })

/-! ## Helper lemmas: membership function bounds -/

/-- Every branch of the triangular membership function lies in `[0, 1]`,
with no ordering assumption on the shape parameters: the two division
branches are guarded by range conditions that force their denominators
positive. -/
theorem triangularMF_bounds (x a b c : ℚ) :
    0 ≤ triangularMF x a b c ∧ triangularMF x a b c ≤ 1 := by
  unfold triangularMF
  split_ifs with h1 h2 h3
  · norm_num
  · obtain ⟨hax, hxb⟩ := h2
    constructor
    · apply div_nonneg <;> linarith
    · rw [div_le_one (by linarith)]
      linarith
  · obtain ⟨hbx, hxc⟩ := h3
    constructor
    · apply div_nonneg <;> linarith
    · rw [div_le_one (by linarith)]
      linarith
  · norm_num

/-- Every branch of the trapezoidal membership function lies in `[0, 1]`,
with no ordering assumption on the shape parameters. -/
theorem trapezoidalMF_bounds (x a b c d : ℚ) :
    0 ≤ trapezoidalMF x a b c d ∧ trapezoidalMF x a b c d ≤ 1 := by
  unfold trapezoidalMF
  split_ifs with h1 h2 h3 h4
  · norm_num
  · obtain ⟨hax, hxb⟩ := h2
    constructor
    · apply div_nonneg <;> linarith
    · rw [div_le_one (by linarith)]
      linarith
  · norm_num
  · obtain ⟨hcx, hxd⟩ := h4
    constructor
    · apply div_nonneg <;> linarith
    · rw [div_le_one (by linarith)]
      linarith
  · norm_num

/-! ## Claims C1, C5, C9 -/

/-- Claim C1, as stated, is false: a triangular call with `a > c` and a
gaussian call with `sigma ≤ 0` are not rejected; both return a plain
numeric degree (`0` here for the triangular, `1` for the gaussian at
`x = mean`). -/
theorem claim_C1_counterexample :
    ((0:ℚ) < 10) ∧ triangularMF 5 10 5 0 = 0 ∧
    ((-1:ℝ) ≤ 0) ∧ gaussianMF 5 5 (-1) = 1 := by
  refine ⟨by norm_num, by norm_num [triangularMF], by norm_num, ?_⟩
  norm_num [gaussianMF, Real.exp_zero]

/-- Claim C1 (amended): the membership functions perform no parameter
validation.  A triangular call whose parameters violate `a ≤ c` still
returns a clamped degree in `[0, 1]`, and a gaussian call with a negative
sigma silently returns the same degree as with `|sigma|`, a value in
`(0, 1]` — no call is rejected. -/
theorem claim_C1_theorem :
    (∀ x a b c : ℚ, c < a →
      0 ≤ triangularMF x a b c ∧ triangularMF x a b c ≤ 1) ∧
    (∀ x mean sigma : ℝ, sigma < 0 →
      gaussianMF x mean sigma = gaussianMF x mean (-sigma) ∧
      0 < gaussianMF x mean sigma ∧ gaussianMF x mean sigma ≤ 1) := by
  constructor
  · intro x a b c _
    exact triangularMF_bounds x a b c
  · intro x mean sigma _
    refine ⟨?_, Real.exp_pos _, ?_⟩
    · unfold gaussianMF
      rw [div_neg, neg_sq]
    · have hsq : (0:ℝ) ≤ ((x - mean) / sigma) ^ 2 := sq_nonneg _
      unfold gaussianMF
      rw [Real.exp_le_one_iff]
      nlinarith

/-- Witness for C1: the amended theorem applied at the counterexample
inputs. -/
theorem claim_C1_witness :
    (0 ≤ triangularMF 5 10 5 0 ∧ triangularMF 5 10 5 0 ≤ 1) ∧
    (gaussianMF 5 5 (-1) = gaussianMF 5 5 1 ∧
      0 < gaussianMF 5 5 (-1) ∧ gaussianMF 5 5 (-1) ≤ 1) := by
  refine ⟨claim_C1_theorem.1 5 10 5 0 (by norm_num), ?_⟩
  have h := claim_C1_theorem.2 5 5 (-1) (by norm_num)
  simpa using h

/-- Claim C5: scoring value 6 against target 5 with fuzzy factor 0.3 and
the triangular membership kind derives the shape `a = 3.5, b = 5, c = 6.5`
and returns `(6.5 - 6)/(6.5 - 5) = 1/3`. -/
theorem claim_C5_theorem :
    5 * (1 - (3:ℚ)/10) = 7/2 ∧ 5 * (1 + (3:ℚ)/10) = 13/2 ∧
    triangularMF 6 (7/2) 5 (13/2) = 1/3 ∧
    calculateFuzzyScore (.num 6) (.num 5) (3/10) "triangular" = ((1:ℝ)/3) := by
  refine ⟨by norm_num, by norm_num, by norm_num [triangularMF], ?_⟩
  simp [calculateFuzzyScore, triangularMF]
  norm_num

/-- Claim C9: the triangular and trapezoidal membership functions are
total for arbitrary shape parameters — each division branch is guarded by
a range condition forcing its denominator positive, and the returned
degree always lies in `[0, 1]`. -/
theorem claim_C9_theorem :
    (∀ x a b c : ℚ,
      (0 ≤ triangularMF x a b c ∧ triangularMF x a b c ≤ 1) ∧
      (a < x → x ≤ b → 0 < b - a) ∧ (b < x → x ≤ c → 0 < c - b)) ∧
    (∀ x a b c d : ℚ,
      (0 ≤ trapezoidalMF x a b c d ∧ trapezoidalMF x a b c d ≤ 1) ∧
      (a < x → x ≤ b → 0 < b - a) ∧ (c < x → x ≤ d → 0 < d - c)) := by
  constructor
  · intro x a b c
    exact ⟨triangularMF_bounds x a b c, fun h1 h2 => by linarith, fun h1 h2 => by linarith⟩
  · intro x a b c d
    exact ⟨trapezoidalMF_bounds x a b c d, fun h1 h2 => by linarith, fun h1 h2 => by linarith⟩

/-- Witness for C9: the theorem applied at concrete inputs inside each
guarded branch. -/
theorem claim_C9_witness :
    (0 ≤ triangularMF 1 0 2 3 ∧ triangularMF 1 0 2 3 ≤ 1) ∧ 0 < (2:ℚ) - 0 ∧ 0 < (3:ℚ) - 2 ∧
    (0 ≤ trapezoidalMF 1 0 2 3 4 ∧ trapezoidalMF 1 0 2 3 4 ≤ 1) ∧ 0 < (4:ℚ) - 3 :=
  ⟨(claim_C9_theorem.1 1 0 2 3).1,
   (claim_C9_theorem.1 1 0 2 3).2.1 (by norm_num) (by norm_num),
   (claim_C9_theorem.1 (5/2) 0 2 3).2.2 (by norm_num) (by norm_num),
   (claim_C9_theorem.2 1 0 2 3 4).1,
   (claim_C9_theorem.2 (7/2) 0 1 3 4).2.2 (by norm_num) (by norm_num)⟩

/-! ## Helper lemmas: WSM fold -/

/-- The confidence component of the WSM fold is the starting value plus
the sum of the (defaulted) confidences of the declared keys whose
attribute is present. -/
theorem wsm_fold_confidence (attrs confs : List (String × ℚ)) :
    ∀ (ws : List (String × ℚ)) (acc : ℚ × ℚ × ℚ),
    (ws.foldl (wsmStep attrs confs) acc).2.2 =
      acc.2.2 + ((ws.filter (fun p => (lookupQ attrs p.1).isSome)).map
        (fun p => jsOr (lookupQ confs p.1) 1)).sum := by
  intro ws
  induction ws with
  | nil => intro acc; simp
  | cons p ws ih =>
    intro acc
    rw [List.foldl_cons, ih]
    rcases h : lookupQ attrs p.1 with _ | av
    · simp [wsmStep, h, List.filter_cons]
    · simp [wsmStep, h, List.filter_cons]
      ring

/-- Scaling every declared weight by `k` scales the score and total-weight
components of the WSM fold by `k` and leaves the confidence component
unchanged. -/
theorem wsm_fold_scale (attrs confs : List (String × ℚ)) (k : ℚ) :
    ∀ (ws : List (String × ℚ)) (s w c : ℚ),
    (ws.map (fun p => (p.1, k * p.2))).foldl (wsmStep attrs confs) (k * s, k * w, c) =
      (k * (ws.foldl (wsmStep attrs confs) (s, w, c)).1,
       k * (ws.foldl (wsmStep attrs confs) (s, w, c)).2.1,
       (ws.foldl (wsmStep attrs confs) (s, w, c)).2.2) := by
  intro ws
  induction ws with
  | nil => intro s w c; simp
  | cons p ws ih =>
    intro s w c
    rcases h : lookupQ attrs p.1 with _ | av
    · simp only [List.map_cons, List.foldl_cons, wsmStep, h]
      exact ih s w c
    · simp only [List.map_cons, List.foldl_cons, wsmStep, h]
      have harg :
          (k * s + av * (k * p.2 * jsOr (lookupQ confs p.1) 1),
            k * w + k * p.2 * jsOr (lookupQ confs p.1) 1,
            c + jsOr (lookupQ confs p.1) 1) =
          (k * (s + av * (p.2 * jsOr (lookupQ confs p.1) 1)),
            k * (w + p.2 * jsOr (lookupQ confs p.1) 1),
            c + jsOr (lookupQ confs p.1) 1) := by
        norm_num
        constructor <;> ring
      rw [harg]
      exact ih _ _ _

/-! ## Claims C3, C4, C7 -/

/-- Claim C3, as stated, is false for negative thresholds: with threshold
`-10` and the default tolerance `0.1` the relaxed bar is `-9`, so the
value `-9.5` satisfies `v ≥ t` yet fails the check — the "relaxation"
raised the bar. -/
theorem claim_C3_counterexample :
    ((-10:ℚ) ≤ -19/2) ∧ (0 ≤ (1:ℚ)/10) ∧ ((1:ℚ)/10 ≤ 1) ∧
    hardCheck (.num (-19/2)) (.num (-10)) (1/10) = false := by
  refine ⟨by norm_num, by norm_num, by norm_num, ?_⟩
  simp only [hardCheck]
  norm_num

/-- Claim C3 (amended): for every numeric value and threshold and every
tolerance in `[0, 1]`, the hard-filter check passes iff
`v ≥ t * (1 - tolerance)` (both as the per-pair check and through
`applyHardCriteriaFilter`); the relaxation never raises the bar for
nonnegative thresholds: every `v ≥ t ≥ 0` passes. -/
theorem claim_C3_theorem :
    (∀ (attrs : List (String × Value)) (k : String) (v t tol : ℚ),
      lookupVal attrs k = some (.num v) → 0 ≤ tol → tol ≤ 1 →
      (applyHardCriteriaFilter [attrs] [(k, .num t)] tol = [attrs] ↔ t * (1 - tol) ≤ v)) ∧
    (∀ v t tol : ℚ, 0 ≤ tol → tol ≤ 1 →
      (hardCheck (.num v) (.num t) tol = true ↔ t * (1 - tol) ≤ v)) ∧
    (∀ v t tol : ℚ, 0 ≤ tol → tol ≤ 1 → 0 ≤ t → t ≤ v →
      hardCheck (.num v) (.num t) tol = true) := by
  have hc : ∀ v t tol : ℚ, (hardCheck (.num v) (.num t) tol = true ↔ t * (1 - tol) ≤ v) := by
    intro v t tol
    simp [hardCheck, not_lt]
  refine ⟨?_, fun v t tol _ _ => hc v t tol, ?_⟩
  · intro attrs k v t tol hl h0 h1
    have hpass : passesHardCriteria attrs [(k, Value.num t)] tol =
        hardCheck (.num v) (.num t) tol := by
      simp [passesHardCriteria, hl]
    have hfilter : applyHardCriteriaFilter [attrs] [(k, Value.num t)] tol =
        if hardCheck (.num v) (.num t) tol then [attrs] else [] := by
      simp [applyHardCriteriaFilter, List.filter_cons, hpass]
    rcases hb : hardCheck (.num v) (.num t) tol with _ | _
    · have hnotle : ¬ t * (1 - tol) ≤ v := by
        intro hle
        rw [(hc v t tol).mpr hle] at hb
        simp at hb
      rw [hfilter, hb]
      simp [hnotle]
    · have hle : t * (1 - tol) ≤ v := (hc v t tol).mp hb
      rw [hfilter, hb]
      simp [hle]
  · intro v t tol h0 h1 ht hv
    apply (hc v t tol).mpr
    nlinarith

/-- Witness for C3: the theorem applied to the spec's own example
(`yearsOfExperience` threshold 5, tolerance 0.1, values 4.6 and 6). -/
theorem claim_C3_witness :
    (applyHardCriteriaFilter [[("yearsOfExperience", Value.num (46/10))]]
        [("yearsOfExperience", Value.num 5)] (1/10) =
        [[("yearsOfExperience", Value.num (46/10))]] ↔ 5 * (1 - (1:ℚ)/10) ≤ 46/10) ∧
    (hardCheck (.num (46/10)) (.num 5) (1/10) = true ↔ 5 * (1 - (1:ℚ)/10) ≤ 46/10) ∧
    hardCheck (.num 6) (.num 5) (1/10) = true := by
  refine ⟨claim_C3_theorem.1 _ "yearsOfExperience" (46/10) 5 (1/10) ?_ (by norm_num) (by norm_num),
    claim_C3_theorem.2.1 (46/10) 5 (1/10) (by norm_num) (by norm_num),
    claim_C3_theorem.2.2 6 5 (1/10) (by norm_num) (by norm_num) (by norm_num) (by norm_num)⟩
  simp [lookupVal, List.find?]

/-- Claim C4, as stated, is false: with declared weights on `a` and `b`
but only attribute `a` present and no supplied confidences, the claim's
mean over all declared keys is `(1 + 1)/2 = 1`, while `applyWSM` returns
confidence `1/2` (absent keys contribute nothing to the numerator but
still count in the denominator). -/
theorem claim_C4_counterexample :
    (applyWSM [("a", 1/2)] [("a", 1), ("b", 1)] []).confidence = 1/2 ∧
    ((1:ℚ) + 1) / 2 = 1 ∧ ((1:ℚ)/2 ≠ 1) := by
  refine ⟨?_, by norm_num, by norm_num⟩
  have haa : (("a":String) == "a") = true := by decide
  have hab : (("a":String) == "b") = false := by decide
  norm_num [applyWSM, wsmStep, lookupQ, jsOr, List.find?, haa, hab]

/-- Claim C4 (amended): the confidence returned by `applyWSM` is the sum
of the per-criterion confidences (defaulted to 1 when not supplied) over
the declared weight keys whose attribute is PRESENT, divided by the number
of all declared weight keys (and 1 when no weights are declared). -/
theorem claim_C4_theorem (attrs ws confs : List (String × ℚ)) :
    (applyWSM attrs ws confs).confidence =
      if ws.length = 0 then 1
      else ((ws.filter (fun p => (lookupQ attrs p.1).isSome)).map
              (fun p => jsOr (lookupQ confs p.1) 1)).sum / (ws.length : ℚ) := by
  simp only [applyWSM, wsm_fold_confidence attrs confs ws (0, 0, 0)]
  rcases Nat.eq_zero_or_pos ws.length with h | h
  · simp [h]
  · simp [h, Nat.pos_iff_ne_zero.mp h]

/-- Claim C7: the WSM output score is invariant under uniform rescaling of
all declared weights by any `k > 0`. -/
theorem claim_C7_theorem (attrs ws confs : List (String × ℚ)) (k : ℚ) (hk : 0 < k) :
    (applyWSM attrs (ws.map (fun p => (p.1, k * p.2))) confs).score =
      (applyWSM attrs ws confs).score := by
  have h0 : ((0:ℚ), (0:ℚ), (0:ℚ)) = (k * 0, k * 0, (0:ℚ)) := by norm_num
  simp only [applyWSM, h0, wsm_fold_scale attrs confs k ws 0 0 0]
  rcases le_or_lt (ws.foldl (wsmStep attrs confs) (k * 0, k * 0, 0)).2.1 0 with h | h
  · rw [if_neg (by nlinarith), if_neg (by linarith)]
  · rw [if_pos (by nlinarith), if_pos (by linarith)]
    exact mul_div_mul_left _ _ (ne_of_gt hk)

/-- Witness for C7: rescaling the single weight by 2 leaves the score
unchanged. -/
theorem claim_C7_witness :
    (applyWSM [("a", 1)] ([("a", 1/2)].map (fun p => (p.1, 2 * p.2))) []).score =
      (applyWSM [("a", 1)] [("a", 1/2)] []).score :=
  claim_C7_theorem [("a", 1)] [("a", 1/2)] [] 2 (by norm_num)

/-! ## Helper lemmas: stable sort is a permutation -/

/-- Inserting an element is a permutation of consing it. -/
theorem insertSorted_perm (cmp : α → α → ℚ) (x : α) :
    ∀ l : List α, (insertSorted cmp x l).Perm (x :: l) := by
  intro l
  induction l with
  | nil => simp [insertSorted]
  | cons y ys ih =>
    rw [insertSorted]
    split_ifs
    · exact List.Perm.refl _
    · exact (ih.cons y).trans (List.Perm.swap x y ys)

/-- The insertion-sort fold permutes its input onto its accumulator. -/
theorem sortByCmp_foldl_perm (cmp : α → α → ℚ) :
    ∀ (l acc : List α),
    (l.foldl (fun acc x => insertSorted cmp x acc) acc).Perm (l ++ acc) := by
  intro l
  induction l with
  | nil => intro acc; simp
  | cons x xs ih =>
    intro acc
    rw [List.foldl_cons]
    exact ((ih (insertSorted cmp x acc)).trans
      ((insertSorted_perm cmp x acc).append_left xs)).trans List.perm_middle

/-- `sortByCmp` returns a permutation of its input. -/
theorem sortByCmp_perm (cmp : α → α → ℚ) (l : List α) :
    (sortByCmp cmp l).Perm l := by
  have h := sortByCmp_foldl_perm cmp l []
  simpa [sortByCmp] using h

/-! ## Claims C2, C6, C10 -/

/-- Claim C2, as stated, is false about the loser's percentile: the
confidence tie-break does put id 2 first with percentile 100, but the
loser at index 1 of 2 receives percentile `100 * (1 - 1/2) = 50`, not 0. -/
theorem claim_C2_counterexample :
    rankCandidates
      [{ id := 1, finalScore := some (85/100), confidence := some (9/10) },
       { id := 2, finalScore := some (83/100), confidence := some (95/100) }] =
      [{ id := 2, finalScore := 83/100, confidence := some (95/100),
         confidenceScore := 95/100, rank := 1, percentile := 100 },
       { id := 1, finalScore := 85/100, confidence := some (9/10),
         confidenceScore := 9/10, rank := 2, percentile := 50 }] ∧ (50:ℚ) ≠ 0 := by
  constructor
  · norm_num [rankCandidates, sortByCmp, insertSorted, rankComparator, prepareCandidate,
      jsOr, List.enum, List.enumFrom, abs]
  · norm_num

/-- Claim C2 (amended): on the two-element input, id 2 ranks first via the
confidence tie-break (`|0.85 - 0.83| < 0.05`), the winner gets rank 1 and
percentile 100, and the loser gets rank 2 and percentile 50. -/
theorem claim_C2_theorem :
    (|(85:ℚ)/100 - 83/100| < 5/100) ∧
    (rankCandidates
      [{ id := 1, finalScore := some (85/100), confidence := some (9/10) },
       { id := 2, finalScore := some (83/100), confidence := some (95/100) }]).map
        (fun r => (r.id, r.rank, r.percentile)) = [(2, 1, 100), (1, 2, 50)] := by
  constructor
  · norm_num [abs]
  · norm_num [rankCandidates, sortByCmp, insertSorted, rankComparator, prepareCandidate,
      jsOr, List.enum, List.enumFrom, abs]

/-! ## Helper lemmas: the Delphi consensus example -/

set_option maxHeartbeats 1000000 in
/-- Evaluation of the outlier filter on the proposals `[0.5, 0.5, 0.5, 0.9]`:
the MAD is 0, so only the values equal to the median 0.5 survive. -/
theorem removeFuzzyOutliers_example :
    removeFuzzyOutliers [1/2, 1/2, 1/2, 9/10] = [1/2, 1/2, 1/2] := by
  norm_num [removeFuzzyOutliers, sortQ, sortByCmp, insertSorted, calculateMedian,
    List.filter, abs, beq_eq_decide]

/-- The criterion set of the single-criterion example. -/
theorem allCriteriaList_example :
    allCriteriaList [[("c", 1/2)], [("c", 1/2)], [("c", 1/2)], [("c", 9/10)]] = ["c"] := by
  norm_num [allCriteriaList]

/-- The collected weights of the single-criterion example. -/
theorem weightsFor_example :
    weightsFor [[("c", 1/2)], [("c", 1/2)], [("c", 1/2)], [("c", 9/10)]] "c" =
      [1/2, 1/2, 1/2, 9/10] := by
  norm_num [weightsFor, lookupQ, List.find?, List.filterMap, beq_eq_decide]

/-- The pre-normalization aggregate of the example is 0.5. -/
theorem delphiRawWeights_example :
    delphiRawWeights [[("c", 1/2)], [("c", 1/2)], [("c", 1/2)], [("c", 9/10)]] =
      [("c", 1/2)] := by
  simp only [delphiRawWeights, allCriteriaList_example, List.map_cons, List.map_nil,
    weightsFor_example, removeFuzzyOutliers_example]
  norm_num

/-- The normalized consensus of the example: the single weight becomes 1. -/
theorem applyDelphiTechnique_example :
    applyDelphiTechnique [[("c", 1/2)], [("c", 1/2)], [("c", 1/2)], [("c", 9/10)]] =
      [("c", 1)] := by
  simp only [applyDelphiTechnique, delphiRawWeights_example, List.map_cons, List.map_nil]
  norm_num

/-- Claim C6, as stated, is false about the returned weight: the MAD=0
rule does drop the 0.9 outlier and the pre-normalization aggregate is 0.5,
but with a single criterion the final normalization divides by the total
0.5, so the returned consensus weight is 1, not 0.5. -/
theorem claim_C6_counterexample :
    applyDelphiTechnique [[("c", 1/2)], [("c", 1/2)], [("c", 1/2)], [("c", 9/10)]] =
      [("c", 1)] ∧ ((1:ℚ) ≠ 1/2) :=
  ⟨applyDelphiTechnique_example, by norm_num⟩

/-- Claim C6 (amended): on proposals `[0.5, 0.5, 0.5, 0.9]` for the single
criterion, the MAD=0 rule keeps exactly the three 0.5 values, the
pre-normalization aggregate is 0.5, and after renormalization the
criterion's weight is 1, so the weights sum to 1. -/
theorem claim_C6_theorem :
    removeFuzzyOutliers [1/2, 1/2, 1/2, 9/10] = [1/2, 1/2, 1/2] ∧
    delphiRawWeights [[("c", 1/2)], [("c", 1/2)], [("c", 1/2)], [("c", 9/10)]] =
      [("c", 1/2)] ∧
    applyDelphiTechnique [[("c", 1/2)], [("c", 1/2)], [("c", 1/2)], [("c", 9/10)]] =
      [("c", 1)] ∧
    ((applyDelphiTechnique [[("c", 1/2)], [("c", 1/2)], [("c", 1/2)], [("c", 9/10)]]).map
        Prod.snd).sum = 1 := by
  refine ⟨removeFuzzyOutliers_example, delphiRawWeights_example,
    applyDelphiTechnique_example, ?_⟩
  rw [applyDelphiTechnique_example]
  norm_num

/-- Claim C10: the ranker returns a fresh list of the same length whose
entries, once the added `rank`/`percentile` annotations are stripped, are
exactly the copied-and-defaulted input candidates, as a permutation —
nothing added, nothing dropped (the input list itself is untouched: the
source maps to fresh objects before sorting, and the embedding is pure). -/
theorem claim_C10_theorem (candidates : List Candidate) :
    (rankCandidates candidates).length = candidates.length ∧
    ((rankCandidates candidates).map stripRank).Perm (candidates.map prepareCandidate) := by
  have hstrip : (rankCandidates candidates).map stripRank =
      sortByCmp rankComparator (candidates.map prepareCandidate) := by
    simp only [rankCandidates, List.map_map]
    have : (stripRank ∘ fun p : ℕ × PreparedCandidate =>
        ({ id := p.2.id, finalScore := p.2.finalScore, confidence := p.2.confidence,
           confidenceScore := p.2.confidenceScore, rank := p.1 + 1,
           percentile := 100 * (1 - (p.1 : ℚ) /
             ((sortByCmp rankComparator (candidates.map prepareCandidate)).length : ℚ)) } :
           RankedCandidate)) = Prod.snd := by
      funext p
      rfl
    rw [this, List.enum_map_snd]
  have hperm : ((rankCandidates candidates).map stripRank).Perm
      (candidates.map prepareCandidate) := by
    rw [hstrip]
    exact sortByCmp_perm rankComparator (candidates.map prepareCandidate)
  refine ⟨?_, hperm⟩
  have h1 : ((rankCandidates candidates).map stripRank).length =
      (candidates.map prepareCandidate).length := hperm.length_eq
  simpa using h1

/-! ## Helper lemmas: array self-similarity (claim C8) -/

mutual

theorem Value.eq_of_beq : ∀ (a b : Value), Value.beq a b = true → a = b
  | .num a, .num b, h => by simpa [Value.beq] using h
  | .str a, .str b, h => by simpa [Value.beq] using h
  | .bool a, .bool b, h => by simpa [Value.beq] using h
  | .arr a, .arr b, h => by
      simp only [Value.beq] at h
      exact congrArg Value.arr (Value.eqList_of_beqList a b h)
  | .num a, .str b, h => by simp [Value.beq] at h
  | .num a, .bool b, h => by simp [Value.beq] at h
  | .num a, .arr b, h => by simp [Value.beq] at h
  | .str a, .num b, h => by simp [Value.beq] at h
  | .str a, .bool b, h => by simp [Value.beq] at h
  | .str a, .arr b, h => by simp [Value.beq] at h
  | .bool a, .num b, h => by simp [Value.beq] at h
  | .bool a, .str b, h => by simp [Value.beq] at h
  | .bool a, .arr b, h => by simp [Value.beq] at h
  | .arr a, .num b, h => by simp [Value.beq] at h
  | .arr a, .str b, h => by simp [Value.beq] at h
  | .arr a, .bool b, h => by simp [Value.beq] at h

theorem Value.eqList_of_beqList : ∀ (as bs : List Value), Value.beqList as bs = true → as = bs
  | [], [], _ => rfl
  | a :: as, b :: bs, h => by
      simp only [Value.beqList, Bool.and_eq_true] at h
      rw [Value.eq_of_beq a b h.1, Value.eqList_of_beqList as bs h.2]
  | [], _ :: _, h => by simp [Value.beqList] at h
  | _ :: _, [], h => by simp [Value.beqList] at h

end

mutual

theorem Value.beq_refl : ∀ (a : Value), Value.beq a a = true
  | .num a => by simp [Value.beq]
  | .str a => by simp [Value.beq]
  | .bool a => by simp [Value.beq]
  | .arr a => by
      simp only [Value.beq]
      exact Value.beqList_refl a

theorem Value.beqList_refl : ∀ (as : List Value), Value.beqList as as = true
  | [] => rfl
  | a :: as => by
      simp only [Value.beqList, Bool.and_eq_true]
      exact ⟨Value.beq_refl a, Value.beqList_refl as⟩

end

theorem string_eq_empty_of_length_eq_zero (s : String) (h : s.length = 0) : s = "" := by
  cases s with
  | mk data =>
    simp [String.length] at h
    simp [h]

theorem string_toList_ne (s t : String) (h : s ≠ t) : s.toList ≠ t.toList := fun he =>
  h (by cases s; cases t; exact congrArg String.mk (by simpa using he))

theorem lev_pos : ∀ (s t : List Char), s ≠ t → 0 < lev s t
  | [], [], h => absurd rfl h
  | [], _ :: _, _ => by simp [lev]
  | _ :: _, [], _ => by simp [lev]
  | a :: s, b :: t, h => by
      rw [lev]
      refine lt_min_iff.mpr ⟨Nat.succ_pos _, lt_min_iff.mpr ⟨Nat.succ_pos _, ?_⟩⟩
      rcases eq_or_ne a b with hab | hab
      · have hst : s ≠ t := by
          intro he
          exact h (by rw [hab, he])
        have hpos := lev_pos s t hst
        rw [if_pos hab]
        omega
      · rw [if_neg hab]
        omega

theorem calculateStringSimilarity_le_one (a b : String) :
    calculateStringSimilarity a b ≤ 1 := by
  simp only [calculateStringSimilarity]
  split_ifs
  · exact le_refl 1
  · norm_num
  · exact le_refl 1
  · have hge : (0:ℚ) ≤ (lev a.toLower.trim.toList b.toLower.trim.toList : ℚ) /
        ((max a.toLower.trim.length b.toLower.trim.length : ℕ) : ℚ) :=
      div_nonneg (Nat.cast_nonneg _) (Nat.cast_nonneg _)
    linarith

theorem calculateStringSimilarity_eq_one_iff (a b : String) :
    calculateStringSimilarity a b = 1 ↔ a.toLower.trim = b.toLower.trim := by
  simp only [calculateStringSimilarity]
  split_ifs with h1 h2 h3
  · constructor
    · intro _
      rw [string_eq_empty_of_length_eq_zero _ h1.1, string_eq_empty_of_length_eq_zero _ h1.2]
    · intro _
      rfl
  · constructor
    · intro h
      norm_num at h
    · intro he
      exfalso
      rcases h2 with h | h
      · exact h1 ⟨h, by rw [← he]; exact h⟩
      · exact h1 ⟨by rw [he]; exact h, h⟩
  · simp [h3]
  · constructor
    · intro h
      exfalso
      push_neg at h2
      have hne := string_toList_ne _ _ h3
      have hd := lev_pos _ _ hne
      have hm : (0:ℚ) < ((max a.toLower.trim.length b.toLower.trim.length : ℕ) : ℚ) := by
        have hml : 0 < max a.toLower.trim.length b.toLower.trim.length := by omega
        exact_mod_cast hml
      have hdiv : (0:ℚ) < (lev a.toLower.trim.toList b.toLower.trim.toList : ℚ) /
          ((max a.toLower.trim.length b.toLower.trim.length : ℕ) : ℚ) :=
        div_pos (by exact_mod_cast hd) hm
      linarith
    · intro he
      exact absurd he h3

theorem numSim_le_one (a b : ℚ) :
    (if max |a| |b| = 0 then (1:ℚ) else max 0 (1 - |a - b| / max |a| |b|)) ≤ 1 := by
  split_ifs with h
  · exact le_refl 1
  · have hm : 0 < max |a| |b| :=
      lt_of_le_of_ne (le_trans (abs_nonneg a) (le_max_left _ _)) (Ne.symm h)
    have hd : 0 ≤ |a - b| / max |a| |b| := div_nonneg (abs_nonneg _) (le_of_lt hm)
    exact max_le (by norm_num) (by linarith)

theorem numSim_eq_one (a b : ℚ)
    (h : (if max |a| |b| = 0 then (1:ℚ) else max 0 (1 - |a - b| / max |a| |b|)) = 1) :
    a = b := by
  split_ifs at h with hm
  · have ha : |a| = 0 := le_antisymm (hm ▸ le_max_left |a| |b|) (abs_nonneg a)
    have hb : |b| = 0 := le_antisymm (hm ▸ le_max_right |a| |b|) (abs_nonneg b)
    rw [abs_eq_zero] at ha hb
    rw [ha, hb]
  · have hmpos : 0 < max |a| |b| :=
      lt_of_le_of_ne (le_trans (abs_nonneg a) (le_max_left _ _)) (Ne.symm hm)
    have h2 : 1 - |a - b| / max |a| |b| = 1 := by
      rcases max_cases 0 (1 - |a - b| / max |a| |b|) with ⟨he, _⟩ | ⟨he, _⟩
      · rw [he] at h
        norm_num at h
      · rw [he] at h
        exact h
    have h3 : |a - b| / max |a| |b| = 0 := by linarith
    have h4 : |a - b| = 0 := by
      rcases div_eq_zero_iff.mp h3 with h4 | h4
      · exact h4
      · exact absurd h4 (ne_of_gt hmpos)
    have h5 := abs_eq_zero.mp h4
    linarith

theorem calculateStringSimilarity_congr_left (x y z : String)
    (h : x.toLower.trim = y.toLower.trim) :
    calculateStringSimilarity x z = calculateStringSimilarity y z := by
  simp only [calculateStringSimilarity, h]

theorem simPair_le_one (cs : Bool) (v w : Value) : simPair cs v w ≤ 1 := by
  cases v with
  | num a =>
    cases w with
    | num b =>
      simp only [simPair]
      exact numSim_le_one a b
    | str b => simp only [simPair]; split_ifs <;> norm_num
    | bool b => simp only [simPair]; split_ifs <;> norm_num
    | arr b => simp only [simPair]; split_ifs <;> norm_num
  | str a =>
    cases w with
    | num b => simp only [simPair]; split_ifs <;> norm_num
    | str b =>
      simp only [simPair]
      exact calculateStringSimilarity_le_one _ _
    | bool b => simp only [simPair]; split_ifs <;> norm_num
    | arr b => simp only [simPair]; split_ifs <;> norm_num
  | bool a =>
    cases w with
    | num b => simp only [simPair]; split_ifs <;> norm_num
    | str b => simp only [simPair]; split_ifs <;> norm_num
    | bool b => simp only [simPair]; split_ifs <;> norm_num
    | arr b => simp only [simPair]; split_ifs <;> norm_num
  | arr a =>
    cases w with
    | num b => simp only [simPair]; split_ifs <;> norm_num
    | str b => simp only [simPair]; split_ifs <;> norm_num
    | bool b => simp only [simPair]; split_ifs <;> norm_num
    | arr b => simp only [simPair]; split_ifs <;> norm_num

theorem simPair_refl (cs : Bool) (v : Value) : simPair cs v v = 1 := by
  cases v with
  | num a =>
    simp only [simPair]
    split_ifs with h
    · rfl
    · simp
  | str s =>
    simp only [simPair]
    exact (calculateStringSimilarity_eq_one_iff _ _).mpr rfl
  | bool b => simp [simPair, Value.beq]
  | arr l =>
    simp only [simPair, Value.beq]
    rw [if_pos (Value.beqList_refl l)]

theorem simPair_subst (cs : Bool) (a b : Value) (h : simPair cs a b = 1) :
    ∀ z, simPair cs a z = simPair cs b z := by
  intro z
  cases a with
  | num na =>
    cases b with
    | num nb =>
      simp only [simPair] at h
      rw [numSim_eq_one na nb h]
    | str sb => simp [simPair, Value.beq] at h
    | bool bb => simp [simPair, Value.beq] at h
    | arr ab => simp [simPair, Value.beq] at h
  | str sa =>
    cases b with
    | num nb => simp [simPair, Value.beq] at h
    | str sb =>
      simp only [simPair] at h
      have hab := (calculateStringSimilarity_eq_one_iff _ _).mp h
      cases z with
      | num nz => simp [simPair, Value.beq]
      | str sz =>
        simp only [simPair]
        exact calculateStringSimilarity_congr_left _ _ _ hab
      | bool bz => simp [simPair, Value.beq]
      | arr az => simp [simPair, Value.beq]
    | bool bb => simp [simPair, Value.beq] at h
    | arr ab => simp [simPair, Value.beq] at h
  | bool ba =>
    cases b with
    | num nb => simp [simPair, Value.beq] at h
    | str sb => simp [simPair, Value.beq] at h
    | bool bb =>
      simp only [simPair, Value.beq] at h
      have : ba = bb := by
        by_cases hb : ba = bb
        · exact hb
        · rw [if_neg (by simpa using hb)] at h
          norm_num at h
      rw [this]
    | arr ab => simp [simPair, Value.beq] at h
  | arr la =>
    cases b with
    | num nb => simp [simPair, Value.beq] at h
    | str sb => simp [simPair, Value.beq] at h
    | bool bb => simp [simPair, Value.beq] at h
    | arr lb =>
      simp only [simPair, Value.beq] at h
      have hlist : Value.beqList la lb = true := by
        by_cases hb : Value.beqList la lb = true
        · exact hb
        · rw [if_neg (by simpa using hb)] at h
          norm_num at h
      rw [Value.eqList_of_beqList la lb hlist]

theorem bestStep_no_update :
    ∀ (l : List (ℕ × ℚ)) (acc : Option ℕ × ℚ), (∀ p ∈ l, p.2 ≤ acc.2) →
    l.foldl bestStep acc = acc := by
  intro l
  induction l with
  | nil => intro acc _; rfl
  | cons p ps ih =>
    intro acc hall
    rw [List.foldl_cons]
    have hstep : bestStep acc p = acc := by
      simp only [bestStep]
      rw [if_neg (not_lt.mpr (hall p (List.mem_cons_self p ps)))]
    rw [hstep]
    exact ih acc (fun q hq => hall q (List.mem_cons_of_mem p hq))

theorem bestStep_finds_one :
    ∀ (xs : List ℚ) (n : ℕ) (acc : Option ℕ × ℚ), acc.2 < 1 →
    (∀ x ∈ xs, x ≤ 1) → (∃ x ∈ xs, x = 1) →
    ∃ j, (List.enumFrom n xs).foldl bestStep acc = (some j, 1) ∧ n ≤ j ∧ xs[j - n]? = some 1 := by
  intro xs
  induction xs with
  | nil =>
    intro n acc _ _ hex
    simp at hex
  | cons x xs ih =>
    intro n acc hlt hall hex
    rw [show List.enumFrom n (x :: xs) = (n, x) :: List.enumFrom (n + 1) xs from rfl,
      List.foldl_cons]
    by_cases hx : x = 1
    · subst hx
      have hstep : bestStep acc (n, 1) = (some n, 1) := by
        simp only [bestStep]
        rw [if_pos hlt]
      rw [hstep]
      rw [bestStep_no_update _ (some n, 1) ?hbound]
      case hbound =>
        intro p hp
        have hmem : p.2 ∈ xs := by
          have h1 : p.2 ∈ (List.enumFrom (n + 1) xs).map Prod.snd := List.mem_map_of_mem _ hp
          rwa [List.enumFrom_map_snd] at h1
        exact hall p.2 (List.mem_cons_of_mem _ hmem)
      exact ⟨n, rfl, le_refl n, by simp⟩
    · have hx1 : x < 1 := lt_of_le_of_ne (hall x (List.mem_cons_self x xs)) hx
      have hex2 : ∃ y ∈ xs, y = 1 := by
        obtain ⟨y, hy, hy1⟩ := hex
        rcases List.mem_cons.mp hy with rfl | hy2
        · exact absurd hy1 hx
        · exact ⟨y, hy2, hy1⟩
      have hacc2 : (bestStep acc (n, x)).2 < 1 := by
        simp only [bestStep]
        split_ifs
        · exact hx1
        · exact hlt
      obtain ⟨j, hj, hnj, hget⟩ := ih (n + 1) (bestStep acc (n, x)) hacc2
        (fun y hy => hall y (List.mem_cons_of_mem _ hy)) hex2
      refine ⟨j, hj, by omega, ?_⟩
      rw [show j - n = (j - (n + 1)) + 1 from by omega, List.getElem?_cons_succ]
      exact hget

theorem findBest_one (thr : ℚ) (row : List ℚ)
    (hall : ∀ x ∈ row, x ≤ 1) (hex : ∃ x ∈ row, x = 1) (hthr : thr - 1/100 < 1) :
    ∃ j, findBest thr row = (some j, 1) ∧ row[j]? = some 1 := by
  obtain ⟨j, hj, _, hget⟩ := bestStep_finds_one row 0 (none, thr - 1/100) hthr hall hex
  refine ⟨j, ?_, by simpa using hget⟩
  rw [findBest]
  exact hj

theorem removeAt_map (g : α → β) (j : ℕ) (l : List α) :
    removeAt j (l.map g) = (removeAt j l).map g := by
  simp only [removeAt, List.map_append, List.map_take, List.map_drop]

theorem removeAt_perm : ∀ (l : List α) (j : ℕ) (c : α), l[j]? = some c →
    l.Perm (c :: removeAt j l) := by
  intro l
  induction l with
  | nil => intro j c h; simp at h
  | cons x t ih =>
    intro j c h
    match j with
    | 0 =>
      rw [List.getElem?_cons_zero] at h
      injection h with h
      subst h
      have hr : removeAt 0 (x :: t) = t := by simp [removeAt]
      rw [hr]
    | j + 1 =>
      rw [List.getElem?_cons_succ] at h
      have hrem : removeAt (j + 1) (x :: t) = x :: removeAt j t := by
        simp [removeAt, List.take_succ_cons, List.drop_succ_cons]
      rw [hrem]
      exact ((ih j c h).cons x).trans (List.Perm.swap c x (removeAt j t))

theorem countP_removeAt (p : α → Bool) (l : List α) (j : ℕ) (c : α) (h : l[j]? = some c) :
    l.countP p = (removeAt j l).countP p + if p c then 1 else 0 := by
  have hperm := (removeAt_perm l j c h).countP_eq p
  rw [hperm, List.countP_cons]

theorem countP_removeAt_pos (p : α → Bool) (l : List α) (j : ℕ) (c : α)
    (h : l[j]? = some c) (hp : p c = true) :
    l.countP p = (removeAt j l).countP p + 1 := by
  rw [(removeAt_perm l j c h).countP_eq p, List.countP_cons_of_pos p _ hp]

theorem countP_removeAt_neg (p : α → Bool) (l : List α) (j : ℕ) (c : α)
    (h : l[j]? = some c) (hp : p c = false) :
    l.countP p = (removeAt j l).countP p := by
  rw [(removeAt_perm l j c h).countP_eq p, List.countP_cons_of_neg p _ (by simp [hp])]

theorem greedyLoop_cons_some (thr : ℚ) (row : List ℚ) (rest : List (List ℚ)) (j : ℕ) (s : ℚ)
    (h : findBest thr row = (some j, s)) :
    greedyLoop thr (row :: rest) =
      (s + (greedyLoop thr (rest.map (removeAt j))).1,
       1 + (greedyLoop thr (rest.map (removeAt j))).2) := by
  rw [greedyLoop, h]

theorem greedy_complete (f : Value → Value → ℚ)
    (hle : ∀ a b, f a b ≤ 1)
    (hrefl : ∀ a, f a a = 1)
    (hsub : ∀ a b, f a b = 1 → ∀ z, f a z = f b z)
    (thr : ℚ) (hthr : thr - 1/100 < 1) :
    ∀ (rs cols : List Value),
    (∀ a, rs.countP (fun b => decide (f a b = 1)) ≤
      cols.countP (fun c => decide (f a c = 1))) →
    greedyLoop thr (rs.map (fun a => cols.map (f a))) = ((rs.length : ℚ), rs.length) := by
  intro rs
  induction rs with
  | nil =>
    intro cols _
    simp [greedyLoop]
  | cons a rs ih =>
    intro cols hinv
    have hex : ∃ c ∈ cols, f a c = 1 := by
      have hpos : 0 < cols.countP (fun c => decide (f a c = 1)) := by
        have h1 := hinv a
        have h2 : 0 < (a :: rs).countP (fun b => decide (f a b = 1)) := by
          rw [List.countP_cons_of_pos (fun b => decide (f a b = 1)) rs
            (decide_eq_true (hrefl a))]
          omega
        omega
      obtain ⟨c, hc, hp⟩ := List.countP_pos_iff.mp hpos
      exact ⟨c, hc, of_decide_eq_true hp⟩
    obtain ⟨j, hfb, hget⟩ := findBest_one thr (cols.map (f a))
      (by
        intro x hx
        obtain ⟨c, _, rfl⟩ := List.mem_map.mp hx
        exact hle a c)
      (by
        obtain ⟨c, hc, hfc⟩ := hex
        exact ⟨f a c, List.mem_map_of_mem _ hc, hfc⟩)
      hthr
    rw [List.getElem?_map] at hget
    obtain ⟨c0, hc0get, hc0⟩ : ∃ c0, cols[j]? = some c0 ∧ f a c0 = 1 := by
      cases hcj : cols[j]? with
      | none =>
        rw [hcj] at hget
        simp at hget
      | some c0 =>
        rw [hcj] at hget
        exact ⟨c0, rfl, by simpa using hget⟩
    have hmm : (rs.map (fun b => cols.map (f b))).map (removeAt j) =
        rs.map (fun b => (removeAt j cols).map (f b)) := by
      rw [List.map_map]
      apply List.map_congr_left
      intro b _
      exact removeAt_map (f b) j cols
    have hinv2 : ∀ a1, rs.countP (fun b => decide (f a1 b = 1)) ≤
        (removeAt j cols).countP (fun c => decide (f a1 c = 1)) := by
      intro a1
      have hrs := hinv a1
      by_cases haa : f a1 a = 1
      · have hda : decide (f a1 a = 1) = true := decide_eq_true haa
        have hc02 : f a1 c0 = 1 := by
          rw [hsub a1 a haa c0]
          exact hc0
        have hdc : decide (f a1 c0 = 1) = true := decide_eq_true hc02
        rw [List.countP_cons_of_pos (fun b => decide (f a1 b = 1)) rs hda,
          countP_removeAt_pos (fun c => decide (f a1 c = 1)) cols j c0 hc0get hdc] at hrs
        omega
      · have hda : decide (f a1 a = 1) = false := decide_eq_false haa
        have hc02 : ¬ f a1 c0 = 1 := by
          intro hc2
          apply haa
          have h1 := hsub a1 c0 hc2 a
          have h2 := hsub a c0 hc0 a
          rw [h1, ← h2]
          exact hrefl a
        have hdc : decide (f a1 c0 = 1) = false := decide_eq_false hc02
        rw [List.countP_cons_of_neg (fun b => decide (f a1 b = 1)) rs
            (fun hpa => haa (of_decide_eq_true hpa)),
          countP_removeAt_neg (fun c => decide (f a1 c = 1)) cols j c0 hc0get hdc] at hrs
        exact hrs
    have hih := ih (removeAt j cols) hinv2
    rw [List.map_cons, greedyLoop_cons_some thr _ _ j 1 hfb, hmm, hih]
    simp only [List.length_cons, Prod.mk.injEq]
    constructor
    · push_cast
      ring
    · omega

/-- Claim C8: the array similarity of any non-empty array with itself
under the default options (`caseSensitive = false`, `threshold = 0.7`)
equals 1: every greedy pass matches a column scoring exactly 1, so both
match quality and coverage are 1 and `0.4 * 1 + 0.6 * 1 = 1`. -/
theorem claim_C8_theorem (X : List Value) (hX : X ≠ []) :
    calculateArraySimilarity X X = 1 := by
  have hlen : X.length ≠ 0 := fun h => hX (List.length_eq_zero.mp h)
  have hcast : (X.length : ℚ) ≠ 0 := Nat.cast_ne_zero.mpr hlen
  have hpos : 0 < X.length := Nat.pos_of_ne_zero hlen
  have hg2 : greedyLoop (7/10) (X.map (fun a => X.map (fun b => simPair false a b))) =
      ((X.length : ℚ), X.length) :=
    greedy_complete (simPair false) (simPair_le_one false) (simPair_refl false)
      (simPair_subst false) (7/10) (by norm_num) X X (fun a => le_refl _)
  simp only [calculateArraySimilarity, hg2]
  rw [if_neg (fun h : X.length = 0 ∧ X.length = 0 => hlen h.1),
    if_neg (fun h : X.length = 0 ∨ X.length = 0 => hlen (h.elim id id)),
    if_neg (by simpa using hlen)]
  simp only [min_self]
  rw [if_pos hpos]
  rw [div_self hcast]
  norm_num

/-- Witness for C8: self-similarity of the one-element skill list
`["java"]` is 1. -/
theorem claim_C8_witness :
    [Value.str "java"] ≠ ([] : List Value) ∧
    calculateArraySimilarity [Value.str "java"] [Value.str "java"] = 1 :=
  ⟨by simp, claim_C8_theorem [Value.str "java"] (by simp)⟩
